import Mathlib

/-!
Shallow embedding of the failure-clustering engine of `copilot-failure-insights`
(`src/utils/dataProcessor.ts`, re-exported by the MCP server as
`mockDataGenerator.ts`): `processFailureClusters` and its helpers
`createClusterFromLogs`, `determineRootCause`, `generateRecommendations`,
`generateClusterName`, `generateClusterSummary`, `determineTrend`,
`generateTags`, together with the `FailureLog` / `ProcessedCluster` data
model from `mcp-server/src/types.ts`.

Modelling choices:
* JS `Date` timestamps are embedded as `Int` (milliseconds, `Date.getTime`).
* JS `number` arithmetic on half-lengths in `determineTrend` is embedded as
  exact rational arithmetic (`ℚ`); on every reachable value (two `Nat` list
  lengths differing by at most one, thresholds `1.2` and `0.8`) IEEE double
  comparison and exact rational comparison agree.
* JS `Array.prototype.sort` is a stable sort; a stable sort with respect to a
  total preorder has a unique result, embedded here as `List.insertionSort`.
* `[...new Set(xs)]` keeps the first occurrence of each element, embedded as
  `jsSetDedup`.
* `String.prototype.split(' ')` splits at every single space character and
  keeps empty fragments, embedded as `splitOnPred` over the char list.
* `String.prototype.toLowerCase` is embedded as a per-char ASCII `toLower`;
  it agrees with JS on all ASCII text (all keyword needles are ASCII).
* The field access `logs[0].skillName` in `createClusterFromLogs` throws on
  an empty array; the embedding returns `Option` and yields `none` there.
-/

/-- Root-cause category enumeration from `ProcessedCluster.rootCause.category`
(`types.ts` lists `grounding | skill | api | timeout | input | auth`). -/
inductive RootCategory where
  | grounding
  | skill
  | api
  | timeout
  | input
  | auth
  deriving DecidableEq

/-- The `rootCause` record of a cluster. -/
structure RootCause where
  category : RootCategory
  description : String
  confidence : ℚ
  deriving DecidableEq

/-- Severity enumeration. -/
inductive Severity where
  | low
  | medium
  | high
  | critical
  deriving DecidableEq

/-- Trend enumeration. -/
inductive Trend where
  | increasing
  | decreasing
  | stable
  deriving DecidableEq

/-- Input failure event (`FailureLog` in `types.ts`).  `skillInputs` is an
opaque key-value record, embedded as an association list. -/
structure FailureLog where
  evaluationId : String
  sessionId : String
  prompt : String
  skillName : String
  skillInputs : List (String × String)
  exception : String
  timestamp : Int
  errorCode : Option String
  userId : Option String
  contextMissing : Option (List String)
  deriving DecidableEq

/-- Output cluster (`ProcessedCluster` in `types.ts`). -/
structure ProcessedCluster where
  id : String
  name : String
  summary : String
  failureCount : Nat
  representativePrompts : List String
  commonExceptions : List String
  rootCause : RootCause
  recommendations : List String
  affectedSkills : List String
  severity : Severity
  firstSeen : Int
  lastSeen : Int
  trend : Trend
  resolved : Bool
  tags : List String
  failureLogs : List FailureLog
  deriving DecidableEq

/-- `charsLeadWith needle cs` holds when `cs` begins with `needle`. -/
def charsLeadWith : List Char → List Char → Bool
  | [], _ => true
  | _ :: _, [] => false
  | a :: as, b :: bs => a == b && charsLeadWith as bs

/-- `charsContain needle cs`: some suffix of `cs` begins with `needle`. -/
def charsContain (needle : List Char) : List Char → Bool
  | [] => needle.isEmpty
  | c :: rest => charsLeadWith needle (c :: rest) || charsContain needle rest

/-- JS `hay.includes(needle)`: contiguous substring test. -/
def strIncludes (hay needle : String) : Bool :=
  charsContain needle.toList hay.toList

/-- JS `s.toLowerCase()` (ASCII range). -/
def strToLower (s : String) : String :=
  String.mk (s.toList.map Char.toLower)

/-- Split a char list at every character satisfying `p`, keeping empty
fragments, exactly as JS `String.prototype.split` does with a one-character
separator (`"".split` yields `[""]`). -/
def splitOnPred (p : Char → Bool) : List Char → List (List Char)
  | [] => [[]]
  | c :: rest =>
    let groups := splitOnPred p rest
    if p c then [] :: groups
    else
      match groups with
      | [] => [[c]]
      | g :: gs => (c :: g) :: gs

/-- JS `s.split(' ')`: split at each single space character `U+0020`. -/
def jsSplitSpace (s : String) : List String :=
  (splitOnPred (fun c => decide (c = ' ')) s.toList).map String.mk

/-- The exception string's whitespace-separated tokens, as the spec words it:
split on whitespace characters and drop empty fragments.  Used only to state
the spec's description of the grouping key, for comparison with the source's
`firstThreeWords`. -/
def whitespaceTokens (s : String) : List String :=
  ((splitOnPred Char.isWhitespace s.toList).filter (fun cs => !cs.isEmpty)).map String.mk

/-- JS `parts.join('_')`. -/
def joinUnderscore : List String → String
  | [] => ""
  | [s] => s
  | s :: rest => s ++ "_" ++ joinUnderscore rest

/-- `log.exception.split(' ').slice(0, 3).join('_')` from the source. -/
def firstThreeWords (s : String) : String :=
  joinUnderscore ((jsSplitSpace s).take 3)

/-- `firstThreeWords` as the spec describes it: the first three
whitespace-separated tokens joined with underscores (all tokens if fewer). -/
def firstThreeWordsSpec (s : String) : String :=
  joinUnderscore ((whitespaceTokens s).take 3)

/-- The grouping key of the source:
`` key = `${log.skillName}_${log.exception.split(' ').slice(0, 3).join('_')}` ``. -/
def groupKey (log : FailureLog) : String :=
  log.skillName ++ "_" ++ firstThreeWords log.exception

/-- The grouping key as the spec describes it (whitespace tokenisation). -/
def groupKeySpec (log : FailureLog) : String :=
  log.skillName ++ "_" ++ firstThreeWordsSpec log.exception

/-- Deduplication worker: drop elements already in `seen`, keep first
occurrences in order. -/
def jsSetDedupAux {α : Type _} [DecidableEq α] : List α → List α → List α
  | _, [] => []
  | seen, a :: rest =>
    if a ∈ seen then jsSetDedupAux seen rest
    else a :: jsSetDedupAux (a :: seen) rest

/-- `[...new Set(xs)]`: deduplicate keeping the first occurrence of each
element, in order. -/
def jsSetDedup {α : Type _} [DecidableEq α] (l : List α) : List α :=
  jsSetDedupAux [] l

/-- One step of the grouping loop: append `log` to the entry of `key` in the
insertion-ordered map (a JS `Map<string, FailureLog[]>`), creating the entry
at the end when absent. -/
def addToGroups : List (String × List FailureLog) → String → FailureLog →
    List (String × List FailureLog)
  | [], key, log => [(key, [log])]
  | (k, ls) :: rest, key, log =>
    if k = key then (k, ls ++ [log]) :: rest
    else (k, ls) :: addToGroups rest key log

/-- The `errorGroups` map built by the `logs.forEach` loop of
`processFailureClusters`, as an insertion-ordered association list. -/
def errorGroups (logs : List FailureLog) : List (String × List FailureLog) :=
  logs.foldl (fun gs log => addToGroups gs (groupKey log) log) []

/-- The member list of the group of key `k`: all logs whose `groupKey` is `k`,
in scan order. -/
def keyFilter (logs : List FailureLog) (k : String) : List FailureLog :=
  logs.filter (fun l => decide (groupKey l = k))

/-- `determineRootCause` from the source: case-insensitive substring scan of
the member exceptions, first match wins, priority
grounding > timeout > auth > input > api. -/
def determineRootCause (logs : List FailureLog) : RootCause :=
  let exceptions := logs.map (fun l => strToLower l.exception)
  if exceptions.any (fun e => strIncludes e "context" || strIncludes e "tenant") then
    ⟨RootCategory.grounding, "Missing or invalid user/tenant context", 0.85⟩
  else if exceptions.any (fun e => strIncludes e "timeout" || strIncludes e "network") then
    ⟨RootCategory.timeout, "API timeouts or network connectivity issues", 0.90⟩
  else if exceptions.any (fun e => strIncludes e "permission" || strIncludes e "unauthorized") then
    ⟨RootCategory.auth, "Authorization or permission issues", 0.88⟩
  else if exceptions.any (fun e => strIncludes e "parameter" || strIncludes e "input") then
    ⟨RootCategory.input, "Invalid or missing skill input parameters", 0.82⟩
  else
    ⟨RootCategory.api, "General API or service issues", 0.70⟩

/-- The root-cause assignment as the claim/spec words it: identical to
`determineRootCause` except that the auth tier is also triggered by
"authentication" and the input tier also by "invalid".  Stated only to be
compared against the source's `determineRootCause`. -/
def rootCauseSpecClaim (logs : List FailureLog) : RootCause :=
  let exceptions := logs.map (fun l => strToLower l.exception)
  if exceptions.any (fun e => strIncludes e "context" || strIncludes e "tenant") then
    ⟨RootCategory.grounding, "Missing or invalid user/tenant context", 0.85⟩
  else if exceptions.any (fun e => strIncludes e "timeout" || strIncludes e "network") then
    ⟨RootCategory.timeout, "API timeouts or network connectivity issues", 0.90⟩
  else if exceptions.any (fun e =>
      strIncludes e "permission" || strIncludes e "unauthorized" ||
      strIncludes e "authentication") then
    ⟨RootCategory.auth, "Authorization or permission issues", 0.88⟩
  else if exceptions.any (fun e =>
      strIncludes e "parameter" || strIncludes e "input" || strIncludes e "invalid") then
    ⟨RootCategory.input, "Invalid or missing skill input parameters", 0.82⟩
  else
    ⟨RootCategory.api, "General API or service issues", 0.70⟩

/-- `generateRecommendations` from the source (the `logs` argument is unused
there as well). -/
def generateRecommendations (rootCause : RootCause) (skillName : String)
    (_logs : List FailureLog) : List String :=
  match rootCause.category with
  | RootCategory.grounding =>
    ["Fix grounding logic for userObject in tenant context",
     "Add validation for required context fields",
     "Implement fallback context resolution"]
  | RootCategory.timeout =>
    ["Increase API timeout thresholds",
     "Implement retry logic with exponential backoff",
     "Add circuit breaker pattern for failing services"]
  | RootCategory.auth =>
    ["Review and update service principal permissions",
     "Implement proper token refresh mechanism",
     "Add user permission validation before skill execution"]
  | RootCategory.input =>
    ["Update " ++ skillName ++ " skill to handle null values gracefully",
     "Add input parameter validation",
     "Provide better error messages for missing inputs"]
  | _ =>
    ["Monitor API health and performance",
     "Review service dependencies",
     "Implement comprehensive error handling"]

/-- The `categoryNames` lookup table of `generateClusterName`; the `skill`
category is absent from the table (JS yields `undefined`). -/
def categoryDisplayName : RootCategory → Option String
  | RootCategory.grounding => some "Context Issues"
  | RootCategory.timeout => some "Timeout Failures"
  | RootCategory.auth => some "Permission Errors"
  | RootCategory.input => some "Input Validation"
  | RootCategory.api => some "API Failures"
  | RootCategory.skill => none

/-- `generateClusterName` from the source (`undefined` interpolates as the
string "undefined" in JS). -/
def generateClusterName (rootCause : RootCause) (skillName : String) : String :=
  skillName ++ " - " ++ (categoryDisplayName rootCause.category).getD "undefined"

/-- `generateClusterSummary` from the source. -/
def generateClusterSummary (rootCause : RootCause) (skillName : String)
    (count : Nat) : String :=
  match rootCause.category with
  | RootCategory.grounding =>
    "Missing user context in " ++ skillName ++ " queries (" ++ toString count ++ " failures)"
  | RootCategory.timeout =>
    "API timeouts in " ++ skillName ++ " operations (" ++ toString count ++ " failures)"
  | RootCategory.auth =>
    "Permission errors in " ++ skillName ++ " execution (" ++ toString count ++ " failures)"
  | RootCategory.input =>
    "Invalid inputs to " ++ skillName ++ " skill (" ++ toString count ++ " failures)"
  | RootCategory.api =>
    "Service errors in " ++ skillName ++ " API calls (" ++ toString count ++ " failures)"
  | RootCategory.skill => "undefined"

/-- The JS string value of a `RootCategory` (the first tag pushed by
`generateTags`). -/
def categoryTag : RootCategory → String
  | RootCategory.grounding => "grounding"
  | RootCategory.skill => "skill"
  | RootCategory.api => "api"
  | RootCategory.timeout => "timeout"
  | RootCategory.input => "input"
  | RootCategory.auth => "auth"

/-- `generateTags` from the source. -/
def generateTags (rootCause : RootCause) (logs : List FailureLog) : List String :=
  let skills := jsSetDedup (logs.map (fun l => l.skillName))
  let tags := categoryTag rootCause.category :: skills.map strToLower
  let tags := if logs.length > 50 then tags ++ ["high-volume"] else tags
  if logs.any (fun l =>
      match l.contextMissing with
      | some (_ :: _) => true
      | _ => false) then
    tags ++ ["context-missing"]
  else tags

/-- The comparison relation of `logs.sort((a, b) => a.timestamp.getTime() -
b.timestamp.getTime())`: ascending by timestamp. -/
def logTimeLE (a b : FailureLog) : Prop := a.timestamp ≤ b.timestamp

instance : DecidableRel logTimeLE := fun a b =>
  inferInstanceAs (Decidable (a.timestamp ≤ b.timestamp))

instance : IsTotal FailureLog logTimeLE := ⟨fun a b => Int.le_total a.timestamp b.timestamp⟩

instance : IsTrans FailureLog logTimeLE := ⟨fun _ _ _ h h' => le_trans h h'⟩

/-- `determineTrend` from the source: sort ascending by timestamp, split at
`floor(n / 2)`, compare the half lengths against factors `1.2` and `0.8`.
The halves have lengths `k = n / 2` and `n - k ∈ {k, k + 1}`, so the only
comparison near a tie is `k + 1 > k * 1.2` at `k = 5`; there the double
product `5 * 1.2` rounds to exactly `6.0`, and `6 > 6.0` is false just as
`6 > 6` is over `ℚ`, so IEEE double and exact rational comparison agree on
every reachable value. -/
def determineTrend (logs : List FailureLog) : Trend :=
  let sorted := List.insertionSort logTimeLE logs
  let midpoint := sorted.length / 2
  let firstHalf := sorted.take midpoint
  let secondHalf := sorted.drop midpoint
  if (secondHalf.length : ℚ) > (firstHalf.length : ℚ) * 1.2 then Trend.increasing
  else if (secondHalf.length : ℚ) < (firstHalf.length : ℚ) * 0.8 then Trend.decreasing
  else Trend.stable

/-- The body of `createClusterFromLogs` once `logs[0]` is known to exist
(`l0` is the first member of `logs`).  Field order of the JS object literal
matters: `representativePrompts`, `commonExceptions` and `affectedSkills` are
computed from the group in scan order, then `trend: determineTrend(logs)`
sorts the member array in place, so the later fields `tags` and `failureLogs`
see the time-sorted array. -/
def buildCluster (l0 : FailureLog) (logs : List FailureLog) (key : String) :
    ProcessedCluster :=
  let skillName := l0.skillName
  let rootCause := determineRootCause logs
  let recommendations := generateRecommendations rootCause skillName logs
  let severity :=
    if logs.length > 50 then Severity.critical
    else if logs.length > 20 then Severity.high
    else if logs.length > 10 then Severity.medium
    else Severity.low
  let times := logs.map (fun l => l.timestamp)
  let firstSeen := times.foldl min l0.timestamp
  let lastSeen := times.foldl max l0.timestamp
  let sorted := List.insertionSort logTimeLE logs
  { id := "cluster_" ++ key
    name := generateClusterName rootCause skillName
    summary := generateClusterSummary rootCause skillName logs.length
    failureCount := logs.length
    representativePrompts := jsSetDedup ((logs.take 5).map (fun l => l.prompt))
    commonExceptions := jsSetDedup (logs.map (fun l => l.exception))
    rootCause := rootCause
    recommendations := recommendations
    affectedSkills := jsSetDedup (logs.map (fun l => l.skillName))
    severity := severity
    firstSeen := firstSeen
    lastSeen := lastSeen
    trend := determineTrend logs
    resolved := false
    tags := generateTags rootCause sorted
    failureLogs := sorted }

/-- `createClusterFromLogs` from the source.  On an empty group the JS code
dereferences `logs[0].skillName` on `undefined` and throws; the embedding
returns `none` there. -/
def createClusterFromLogs (logs : List FailureLog) (key : String) :
    Option ProcessedCluster :=
  match logs with
  | [] => none
  | l0 :: rest => some (buildCluster l0 (l0 :: rest) key)

/-- The materialized cluster list before the final sort: iterate the group
map in insertion order and keep every group meeting `minClusterSize`. -/
def presortClusters (logs : List FailureLog) (minClusterSize : Nat) :
    List ProcessedCluster :=
  (errorGroups logs).filterMap
    (fun g => if minClusterSize ≤ g.2.length then createClusterFromLogs g.2 g.1 else none)

/-- The comparison relation of
`clusters.sort((a, b) => b.failureCount - a.failureCount)`: descending by
`failureCount`. -/
def clusterGE (a b : ProcessedCluster) : Prop := b.failureCount ≤ a.failureCount

instance : DecidableRel clusterGE := fun a b =>
  inferInstanceAs (Decidable (b.failureCount ≤ a.failureCount))

instance : IsTotal ProcessedCluster clusterGE := ⟨fun a b => Nat.le_total b.failureCount a.failureCount⟩

instance : IsTrans ProcessedCluster clusterGE := ⟨fun _ _ _ h h' => le_trans h' h⟩

/-- `processFailureClusters` from the source (the JS default for
`minClusterSize` is 3). -/
def processFailureClusters (logs : List FailureLog) (minClusterSize : Nat := 3) :
    List ProcessedCluster :=
  List.insertionSort clusterGE (presortClusters logs minClusterSize)

/-- A concrete failure event with the fields the engine reads; the remaining
fields are fixed house values. -/
def mkLog (skill exc : String) (ts : Int) : FailureLog :=
  { evaluationId := "e", sessionId := "s", prompt := "p", skillName := skill,
    skillInputs := [], exception := exc, timestamp := ts, errorCode := none,
    userId := none, contextMissing := none }

/-- A small concrete input: three events of one group (skill `A`, same
exception, timestamps out of order) and one event of a second group. -/
def demoLogs : List FailureLog :=
  [mkLog "A" "API timeout x" 3, mkLog "A" "API timeout x" 1,
   mkLog "A" "API timeout x" 2, mkLog "B" "Invalid y" 0]

/-- An event whose exception contains a tab between the first two words. -/
def cxTabLog : FailureLog := mkLog "S" "a\tb c d" 0

/-- An event with the same words separated by plain spaces. -/
def cxSpaceLog : FailureLog := mkLog "S" "a b c d" 0

/-- An event whose exception contains "invalid" but none of the needles the
source actually scans for. -/
def invalidLog : FailureLog := mkLog "S" "Invalid data supplied" 0

/-- An event whose exception contains "authentication" but none of the
needles the source actually scans for. -/
def authWordLog : FailureLog := mkLog "S" "authentication failure happened" 0

/-- The spec's priority scenario: one "context missing" event. -/
def ctxLog : FailureLog := mkLog "S" "context missing" 0

/-- The spec's priority scenario: an "API timeout occurred" event. -/
def timeoutLog : FailureLog := mkLog "S" "API timeout occurred" 0

/-- One "context missing" event together with nine "API timeout occurred"
events. -/
def mixedLogs : List FailureLog := ctxLog :: List.replicate 9 timeoutLog

/-- A plain event for the severity boundary scenarios. -/
def sevLog : FailureLog := mkLog "S" "boom x y" 0

example : jsSplitSpace "a b c d" = ["a", "b", "c", "d"] := by decide
example : jsSplitSpace "" = [""] := by decide
example : jsSplitSpace "a  b" = ["a", "", "b"] := by decide
example : firstThreeWords "User context not found in tenant" = "User_context_not" := by decide
example : firstThreeWordsSpec "a\tb c d" = "a_b_c" := by decide
example : firstThreeWords "a\tb c d" = "a\tb_c_d" := by decide
example : strIncludes "api timeout occurred" "timeout" = true := by decide
example : strIncludes "api timeout occurred" "context" = false := by decide
example : strToLower "API Timeout" = "api timeout" := by decide
/-! ### Properties of `jsSetDedup` -/

theorem mem_jsSetDedupAux {α : Type _} [DecidableEq α] (a : α) :
    ∀ (l seen : List α), a ∈ jsSetDedupAux seen l ↔ a ∈ l ∧ a ∉ seen
  | [], seen => by simp [jsSetDedupAux]
  | b :: rest, seen => by
    by_cases hb : b ∈ seen
    · rw [jsSetDedupAux, if_pos hb, mem_jsSetDedupAux a rest seen]
      constructor
      · rintro ⟨h1, h2⟩
        exact ⟨List.mem_cons_of_mem _ h1, h2⟩
      · rintro ⟨h1, h2⟩
        rcases List.mem_cons.mp h1 with rfl | h1
        · exact absurd hb h2
        · exact ⟨h1, h2⟩
    · rw [jsSetDedupAux, if_neg hb]
      simp only [List.mem_cons, mem_jsSetDedupAux a rest (b :: seen)]
      by_cases hab : a = b
      · subst hab
        tauto
      · tauto

theorem mem_jsSetDedup {α : Type _} [DecidableEq α] (a : α) (l : List α) :
    a ∈ jsSetDedup l ↔ a ∈ l := by
  rw [jsSetDedup, mem_jsSetDedupAux]
  simp

theorem nodup_jsSetDedupAux {α : Type _} [DecidableEq α] :
    ∀ (l seen : List α), (jsSetDedupAux seen l).Nodup
  | [], _ => by simp [jsSetDedupAux]
  | b :: rest, seen => by
    by_cases hb : b ∈ seen
    · rw [jsSetDedupAux, if_pos hb]
      exact nodup_jsSetDedupAux rest seen
    · rw [jsSetDedupAux, if_neg hb, List.nodup_cons]
      refine ⟨fun hc => ?_, nodup_jsSetDedupAux rest (b :: seen)⟩
      exact ((mem_jsSetDedupAux b rest (b :: seen)).mp hc).2 (List.mem_cons_self b seen)

theorem nodup_jsSetDedup {α : Type _} [DecidableEq α] (l : List α) :
    (jsSetDedup l).Nodup :=
  nodup_jsSetDedupAux l []

theorem jsSetDedupAux_append_singleton {α : Type _} [DecidableEq α] (a : α) :
    ∀ (l seen : List α),
      jsSetDedupAux seen (l ++ [a])
        = if a ∈ seen ∨ a ∈ l then jsSetDedupAux seen l
          else jsSetDedupAux seen l ++ [a]
  | [], seen => by
    by_cases ha : a ∈ seen
    · simp [jsSetDedupAux, ha]
    · simp [jsSetDedupAux, ha]
  | b :: rest, seen => by
    by_cases hb : b ∈ seen
    · rw [List.cons_append, jsSetDedupAux, if_pos hb,
        jsSetDedupAux_append_singleton a rest seen, jsSetDedupAux, if_pos hb]
      have hcond : (a ∈ seen ∨ a ∈ rest) ↔ (a ∈ seen ∨ a ∈ b :: rest) := by
        constructor
        · rintro (h | h)
          · exact Or.inl h
          · exact Or.inr (List.mem_cons_of_mem _ h)
        · rintro (h | h)
          · exact Or.inl h
          · rcases List.mem_cons.mp h with rfl | h
            · exact Or.inl hb
            · exact Or.inr h
      by_cases hc : a ∈ seen ∨ a ∈ rest
      · rw [if_pos hc, if_pos (hcond.mp hc)]
      · rw [if_neg hc, if_neg (fun h => hc (hcond.mpr h))]
    · rw [List.cons_append, jsSetDedupAux, if_neg hb,
        jsSetDedupAux_append_singleton a rest (b :: seen)]
      have hcond : (a ∈ b :: seen ∨ a ∈ rest) ↔ (a ∈ seen ∨ a ∈ b :: rest) := by
        constructor
        · rintro (h | h)
          · rcases List.mem_cons.mp h with rfl | h
            · exact Or.inr (List.mem_cons_self a rest)
            · exact Or.inl h
          · exact Or.inr (List.mem_cons_of_mem _ h)
        · rintro (h | h)
          · exact Or.inl (List.mem_cons_of_mem _ h)
          · rcases List.mem_cons.mp h with rfl | h
            · exact Or.inl (List.mem_cons_self a seen)
            · exact Or.inr h
      by_cases hc : a ∈ b :: seen ∨ a ∈ rest
      · rw [if_pos hc, if_pos (hcond.mp hc), jsSetDedupAux, if_neg hb]
      · rw [if_neg hc, if_neg (fun h => hc (hcond.mpr h)), jsSetDedupAux, if_neg hb,
          List.cons_append]

theorem jsSetDedup_append_singleton {α : Type _} [DecidableEq α] (a : α) (l : List α) :
    jsSetDedup (l ++ [a])
      = if a ∈ l then jsSetDedup l else jsSetDedup l ++ [a] := by
  rw [jsSetDedup, jsSetDedup, jsSetDedupAux_append_singleton]
  simp

/-! ### The closed form of `errorGroups` -/

theorem addToGroups_cons_self (k : String) (ls : List FailureLog)
    (rest : List (String × List FailureLog)) (x : FailureLog) :
    addToGroups ((k, ls) :: rest) k x = (k, ls ++ [x]) :: rest := by
  simp [addToGroups]

theorem addToGroups_cons_of_ne {k key : String} (h : ¬(k = key)) (ls : List FailureLog)
    (rest : List (String × List FailureLog)) (x : FailureLog) :
    addToGroups ((k, ls) :: rest) key x = (k, ls) :: addToGroups rest key x := by
  simp [addToGroups, h]

theorem errorGroups_append (logs : List FailureLog) (x : FailureLog) :
    errorGroups (logs ++ [x]) = addToGroups (errorGroups logs) (groupKey x) x := by
  simp [errorGroups, List.foldl_append]

theorem addToGroups_map_of_not_mem (F : String → List FailureLog) (key : String)
    (x : FailureLog) :
    ∀ ks : List String, key ∉ ks →
      addToGroups (ks.map (fun k => (k, F k))) key x
        = ks.map (fun k => (k, F k)) ++ [(key, [x])]
  | [], _ => rfl
  | k :: ks, h => by
    have hk : ¬(k = key) := fun e => h (e ▸ List.mem_cons_self k ks)
    rw [List.map_cons, addToGroups_cons_of_ne hk, List.cons_append,
      addToGroups_map_of_not_mem F key x ks (fun hm => h (List.mem_cons_of_mem _ hm))]

theorem addToGroups_map_of_mem (F G : String → List FailureLog) (key : String)
    (x : FailureLog) :
    ∀ ks : List String, ks.Nodup → key ∈ ks →
      (∀ k ∈ ks, G k = if k = key then F k ++ [x] else F k) →
      addToGroups (ks.map (fun k => (k, F k))) key x = ks.map (fun k => (k, G k))
  | [], _, h, _ => absurd h (List.not_mem_nil key)
  | k :: ks, hnd, hmem, hG => by
    by_cases hk : k = key
    · subst hk
      rw [List.map_cons, addToGroups_cons_self, List.map_cons]
      have h1 : G k = F k ++ [x] := by
        have := hG k (List.mem_cons_self _ _)
        rwa [if_pos rfl] at this
      rw [h1]
      congr 1
      refine List.map_congr_left (fun k' hk' => ?_)
      have hne : ¬(k' = k) := fun e => (List.nodup_cons.mp hnd).1 (e ▸ hk')
      have := hG k' (List.mem_cons_of_mem _ hk')
      rw [if_neg hne] at this
      rw [this]
    · have hmem' : key ∈ ks := by
        rcases List.mem_cons.mp hmem with h | h
        · exact absurd h.symm hk
        · exact h
      rw [List.map_cons, addToGroups_cons_of_ne hk, List.map_cons]
      have hGk : G k = F k := by
        have := hG k (List.mem_cons_self _ _)
        rwa [if_neg hk] at this
      rw [hGk,
        addToGroups_map_of_mem F G key x ks (List.nodup_cons.mp hnd).2 hmem'
          (fun k' hk' => hG k' (List.mem_cons_of_mem _ hk'))]

theorem keyFilter_append_single (logs : List FailureLog) (x : FailureLog) (k : String) :
    keyFilter (logs ++ [x]) k
      = keyFilter logs k ++ (if groupKey x = k then [x] else []) := by
  simp only [keyFilter, List.filter_append, List.filter_cons, List.filter_nil]
  by_cases h : groupKey x = k <;> simp [h]

theorem keyFilter_eq_nil (logs : List FailureLog) (k : String)
    (h : k ∉ logs.map groupKey) : keyFilter logs k = [] := by
  rw [keyFilter, List.filter_eq_nil_iff]
  intro l hl
  simp only [decide_eq_true_eq]
  exact fun e => h (e ▸ List.mem_map_of_mem groupKey hl)

theorem errorGroups_eq (logs : List FailureLog) :
    errorGroups logs
      = (jsSetDedup (logs.map groupKey)).map (fun k => (k, keyFilter logs k)) := by
  induction logs using List.reverseRecOn with
  | nil => rfl
  | append_singleton logs x ih =>
    rw [errorGroups_append, ih, List.map_append, List.map_cons, List.map_nil,
      jsSetDedup_append_singleton]
    by_cases hmem : groupKey x ∈ logs.map groupKey
    · rw [if_pos hmem]
      rw [addToGroups_map_of_mem (keyFilter logs) (keyFilter (logs ++ [x]))
        (groupKey x) x _ (nodup_jsSetDedup _) ((mem_jsSetDedup _ _).mpr hmem)
        (fun k hk => ?_)]
      rw [keyFilter_append_single]
      by_cases hkx : k = groupKey x
      · subst hkx
        rw [if_pos rfl, if_pos rfl]
      · rw [if_neg hkx, if_neg (fun e => hkx e.symm), List.append_nil]
    · rw [if_neg hmem,
        addToGroups_map_of_not_mem (keyFilter logs) (groupKey x) x _
          (fun hc => hmem ((mem_jsSetDedup _ _).mp hc)),
        List.map_append, List.map_cons, List.map_nil]
      congr 1
      · refine List.map_congr_left (fun k hk => ?_)
        rw [keyFilter_append_single]
        have hkx : ¬(groupKey x = k) :=
          fun e => hmem (e ▸ (mem_jsSetDedup _ _).mp hk)
        rw [if_neg hkx, List.append_nil]
      · rw [keyFilter_append_single, if_pos rfl, keyFilter_eq_nil logs _ hmem,
          List.nil_append]

theorem mem_errorGroups {logs : List FailureLog} {k : String} {g : List FailureLog} :
    (k, g) ∈ errorGroups logs ↔ k ∈ logs.map groupKey ∧ g = keyFilter logs k := by
  rw [errorGroups_eq]
  simp only [List.mem_map, Prod.mk.injEq, mem_jsSetDedup]
  constructor
  · rintro ⟨k', hk', rfl, rfl⟩
    exact ⟨hk', rfl⟩
  · rintro ⟨hk, rfl⟩
    exact ⟨k, hk, rfl, rfl⟩

theorem mem_keyFilter {logs : List FailureLog} {k : String} {l : FailureLog} :
    l ∈ keyFilter logs k ↔ l ∈ logs ∧ groupKey l = k := by
  simp [keyFilter, List.mem_filter]

theorem keyFilter_ne_nil {logs : List FailureLog} {k : String}
    (h : k ∈ logs.map groupKey) : keyFilter logs k ≠ [] := by
  rcases List.mem_map.mp h with ⟨l, hl, rfl⟩
  intro hnil
  have hmem : l ∈ keyFilter logs (groupKey l) := mem_keyFilter.mpr ⟨hl, rfl⟩
  rw [hnil] at hmem
  exact List.not_mem_nil l hmem

theorem errorGroups_snd_ne_nil {logs : List FailureLog} {p : String × List FailureLog}
    (h : p ∈ errorGroups logs) : p.2 ≠ [] := by
  obtain ⟨k, g⟩ := p
  rcases mem_errorGroups.mp h with ⟨hk, rfl⟩
  exact keyFilter_ne_nil hk

/-! ### The clusters before the final sort -/

theorem createClusterFromLogs_cons (l0 : FailureLog) (rest : List FailureLog)
    (key : String) :
    createClusterFromLogs (l0 :: rest) key = some (buildCluster l0 (l0 :: rest) key) :=
  rfl

theorem createClusterFromLogs_eq_some {logs : List FailureLog} {key : String}
    {c : ProcessedCluster} (h : createClusterFromLogs logs key = some c) :
    ∃ l0 rest, logs = l0 :: rest ∧ c = buildCluster l0 logs key := by
  cases logs with
  | nil => cases h
  | cons l0 rest => exact ⟨l0, rest, rfl, (Option.some.inj h).symm⟩

theorem mem_presortClusters {logs : List FailureLog} {m : Nat} {c : ProcessedCluster} :
    c ∈ presortClusters logs m ↔
      ∃ k, k ∈ logs.map groupKey ∧ m ≤ (keyFilter logs k).length ∧
        createClusterFromLogs (keyFilter logs k) k = some c := by
  rw [presortClusters]
  simp only [List.mem_filterMap]
  constructor
  · rintro ⟨⟨k, g⟩, hmem, hf⟩
    rcases mem_errorGroups.mp hmem with ⟨hk, rfl⟩
    by_cases hle : m ≤ (keyFilter logs k).length
    · rw [if_pos hle] at hf
      exact ⟨k, hk, hle, hf⟩
    · rw [if_neg hle] at hf
      cases hf
  · rintro ⟨k, hk, hle, hf⟩
    exact ⟨(k, keyFilter logs k), mem_errorGroups.mpr ⟨hk, rfl⟩,
      by rw [if_pos hle]; exact hf⟩

theorem mem_processFailureClusters {logs : List FailureLog} {m : Nat}
    {c : ProcessedCluster} :
    c ∈ processFailureClusters logs m ↔ c ∈ presortClusters logs m := by
  rw [processFailureClusters]
  exact List.mem_insertionSort clusterGE

/-- Every cluster of the output comes from a nonempty key group meeting the
threshold, built by `buildCluster` from that group and its first member. -/
theorem shape_of_mem_output {logs : List FailureLog} {m : Nat} {c : ProcessedCluster}
    (h : c ∈ processFailureClusters logs m) :
    ∃ k l0 rest, k ∈ logs.map groupKey ∧ keyFilter logs k = l0 :: rest ∧
      m ≤ (keyFilter logs k).length ∧ c = buildCluster l0 (keyFilter logs k) k := by
  rcases mem_presortClusters.mp (mem_processFailureClusters.mp h) with ⟨k, hk, hle, hf⟩
  rcases createClusterFromLogs_eq_some hf with ⟨l0, rest, heq, hc⟩
  exact ⟨k, l0, rest, hk, heq, hle, heq ▸ hc⟩

/-! ### Fields of `buildCluster` -/

theorem buildCluster_id (l0 : FailureLog) (logs : List FailureLog) (key : String) :
    (buildCluster l0 logs key).id = "cluster_" ++ key := rfl

theorem buildCluster_failureCount (l0 : FailureLog) (logs : List FailureLog)
    (key : String) : (buildCluster l0 logs key).failureCount = logs.length := rfl

theorem buildCluster_failureLogs (l0 : FailureLog) (logs : List FailureLog)
    (key : String) :
    (buildCluster l0 logs key).failureLogs = List.insertionSort logTimeLE logs := rfl

theorem buildCluster_severity (l0 : FailureLog) (logs : List FailureLog) (key : String) :
    (buildCluster l0 logs key).severity
      = (if logs.length > 50 then Severity.critical
         else if logs.length > 20 then Severity.high
         else if logs.length > 10 then Severity.medium
         else Severity.low) := rfl

theorem buildCluster_trend (l0 : FailureLog) (logs : List FailureLog) (key : String) :
    (buildCluster l0 logs key).trend = determineTrend logs := rfl

theorem buildCluster_rootCause (l0 : FailureLog) (logs : List FailureLog) (key : String) :
    (buildCluster l0 logs key).rootCause = determineRootCause logs := rfl

theorem buildCluster_affectedSkills (l0 : FailureLog) (logs : List FailureLog)
    (key : String) :
    (buildCluster l0 logs key).affectedSkills
      = jsSetDedup (logs.map (fun l => l.skillName)) := rfl

theorem buildCluster_representativePrompts (l0 : FailureLog) (logs : List FailureLog)
    (key : String) :
    (buildCluster l0 logs key).representativePrompts
      = jsSetDedup ((logs.take 5).map (fun l => l.prompt)) := rfl

theorem buildCluster_firstSeen (l0 : FailureLog) (logs : List FailureLog) (key : String) :
    (buildCluster l0 logs key).firstSeen
      = (logs.map (fun l => l.timestamp)).foldl min l0.timestamp := rfl

theorem buildCluster_lastSeen (l0 : FailureLog) (logs : List FailureLog) (key : String) :
    (buildCluster l0 logs key).lastSeen
      = (logs.map (fun l => l.timestamp)).foldl max l0.timestamp := rfl

/-! ### Folded minima and maxima -/

theorem foldl_min_le_init {α : Type _} [LinearOrder α] :
    ∀ (l : List α) (a : α), l.foldl min a ≤ a
  | [], a => le_refl a
  | x :: l, a => le_trans (foldl_min_le_init l (min a x)) (min_le_left a x)

theorem foldl_min_le_mem {α : Type _} [LinearOrder α] :
    ∀ (l : List α) (a b : α), b ∈ l → l.foldl min a ≤ b
  | [], _, _, h => absurd h (List.not_mem_nil _)
  | x :: l, a, b, h => by
    rcases List.mem_cons.mp h with rfl | h
    · exact le_trans (foldl_min_le_init l (min a b)) (min_le_right a b)
    · exact foldl_min_le_mem l (min a x) b h

theorem foldl_min_mem {α : Type _} [LinearOrder α] :
    ∀ (l : List α) (a : α), l.foldl min a = a ∨ l.foldl min a ∈ l
  | [], _ => Or.inl rfl
  | x :: l, a => by
    rcases foldl_min_mem l (min a x) with h | h
    · rcases min_choice a x with hm | hm
      · exact Or.inl (by rw [List.foldl_cons, h, hm])
      · exact Or.inr (by rw [List.foldl_cons, h, hm]; exact List.mem_cons_self x l)
    · exact Or.inr (List.mem_cons_of_mem _ h)

theorem init_le_foldl_max {α : Type _} [LinearOrder α] :
    ∀ (l : List α) (a : α), a ≤ l.foldl max a
  | [], a => le_refl a
  | x :: l, a => le_trans (le_max_left a x) (init_le_foldl_max l (max a x))

theorem mem_le_foldl_max {α : Type _} [LinearOrder α] :
    ∀ (l : List α) (a b : α), b ∈ l → b ≤ l.foldl max a
  | [], _, _, h => absurd h (List.not_mem_nil _)
  | x :: l, a, b, h => by
    rcases List.mem_cons.mp h with rfl | h
    · exact le_trans (le_max_right a b) (init_le_foldl_max l (max a b))
    · exact mem_le_foldl_max l (max a x) b h

theorem foldl_max_mem {α : Type _} [LinearOrder α] :
    ∀ (l : List α) (a : α), l.foldl max a = a ∨ l.foldl max a ∈ l
  | [], _ => Or.inl rfl
  | x :: l, a => by
    rcases foldl_max_mem l (max a x) with h | h
    · rcases max_choice a x with hm | hm
      · exact Or.inl (by rw [List.foldl_cons, h, hm])
      · exact Or.inr (by rw [List.foldl_cons, h, hm]; exact List.mem_cons_self x l)
    · exact Or.inr (List.mem_cons_of_mem _ h)

/-! ### The trend comparison over exact rationals -/

theorem rat_mul_twelve_tenths_lt_iff (a b : Nat) :
    ((a : ℚ) * 1.2 < (b : ℚ)) ↔ 6 * a < 5 * b := by
  rw [show (1.2 : ℚ) = 6 / 5 by norm_num, ← mul_div_assoc,
    div_lt_iff₀ (by norm_num : (0 : ℚ) < 5)]
  constructor
  · intro h
    have h' : (6 * a : ℚ) < 5 * b := by linarith
    exact_mod_cast h'
  · intro h
    have h' : (6 * a : ℚ) < 5 * b := by exact_mod_cast h
    push_cast at h'
    linarith

theorem rat_lt_mul_eight_tenths_iff (a b : Nat) :
    ((b : ℚ) < (a : ℚ) * 0.8) ↔ 5 * b < 4 * a := by
  rw [show (0.8 : ℚ) = 4 / 5 by norm_num, ← mul_div_assoc,
    lt_div_iff₀ (by norm_num : (0 : ℚ) < 5)]
  constructor
  · intro h
    have h' : (5 * b : ℚ) < 4 * a := by linarith
    exact_mod_cast h'
  · intro h
    have h' : (5 * b : ℚ) < 4 * a := by exact_mod_cast h
    push_cast at h'
    linarith

/-- `determineTrend` depends only on the group size `n`: `increasing` exactly
for odd `n ≤ 9`, otherwise `stable`; the `decreasing` branch is unreachable. -/
theorem determineTrend_eq (logs : List FailureLog) :
    determineTrend logs
      = if logs.length % 2 = 1 ∧ logs.length ≤ 9 then Trend.increasing
        else Trend.stable := by
  have hlen : (List.insertionSort logTimeLE logs).length = logs.length :=
    List.length_insertionSort logTimeLE logs
  simp only [determineTrend, List.length_take, List.length_drop, hlen,
    min_eq_left (Nat.div_le_self logs.length 2)]
  simp only [gt_iff_lt, rat_mul_twelve_tenths_lt_iff, rat_lt_mul_eight_tenths_iff]
  have h2 : ¬(5 * (logs.length - logs.length / 2) < 4 * (logs.length / 2)) := by omega
  rw [if_neg h2]
  by_cases h1 : logs.length % 2 = 1 ∧ logs.length ≤ 9
  · rw [if_pos (by omega : 6 * (logs.length / 2) < 5 * (logs.length - logs.length / 2)),
      if_pos h1]
  · rw [if_neg (by omega : ¬(6 * (logs.length / 2) < 5 * (logs.length - logs.length / 2))),
      if_neg h1]

/-! ### Stability of `insertionSort` with respect to a saturated filter -/

theorem filter_orderedInsert_pos {α : Type _} (r : α → α → Prop) [DecidableRel r]
    (p : α → Bool) (a : α) (hpa : p a = true) (hcomp : ∀ b, p b = true → r a b) :
    ∀ L : List α, (List.orderedInsert r a L).filter p = a :: L.filter p
  | [] => by simp [hpa]
  | b :: L => by
    by_cases hr : r a b
    · rw [List.orderedInsert, if_pos hr, List.filter_cons_of_pos hpa]
    · rw [List.orderedInsert, if_neg hr]
      have hpb : ¬(p b = true) := fun h => hr (hcomp b h)
      rw [List.filter_cons_of_neg hpb, List.filter_cons_of_neg hpb,
        filter_orderedInsert_pos r p a hpa hcomp L]

theorem filter_orderedInsert_neg {α : Type _} (r : α → α → Prop) [DecidableRel r]
    (p : α → Bool) (a : α) (hpa : ¬(p a = true)) :
    ∀ L : List α, (List.orderedInsert r a L).filter p = L.filter p
  | [] => by
    rw [List.orderedInsert, List.filter_cons_of_neg hpa]
  | b :: L => by
    by_cases hr : r a b
    · rw [List.orderedInsert, if_pos hr, List.filter_cons_of_neg hpa]
    · rw [List.orderedInsert, if_neg hr]
      by_cases hpb : p b = true
      · rw [List.filter_cons_of_pos hpb, List.filter_cons_of_pos hpb,
          filter_orderedInsert_neg r p a hpa L]
      · rw [List.filter_cons_of_neg hpb, List.filter_cons_of_neg hpb,
          filter_orderedInsert_neg r p a hpa L]

/-- A stable sort leaves the members satisfying `p` in their original relative
order, whenever any two members satisfying `p` are tied under `r`. -/
theorem filter_insertionSort {α : Type _} (r : α → α → Prop) [DecidableRel r]
    (p : α → Bool) (hcomp : ∀ a b, p a = true → p b = true → r a b) :
    ∀ l : List α, (List.insertionSort r l).filter p = l.filter p
  | [] => rfl
  | a :: l => by
    rw [List.insertionSort]
    by_cases hpa : p a = true
    · rw [filter_orderedInsert_pos r p a hpa (fun b hb => hcomp a b hpa hb),
        filter_insertionSort r p hcomp l, List.filter_cons_of_pos hpa]
    · rw [filter_orderedInsert_neg r p a hpa,
        filter_insertionSort r p hcomp l, List.filter_cons_of_neg hpa]

/-! ### Counting members across the groups -/

theorem length_filter_split {α : Type _} (p : α → Bool) :
    ∀ l : List α, (l.filter p).length + (l.filter (fun a => !(p a))).length = l.length
  | [] => rfl
  | a :: l => by
    have ih := length_filter_split p l
    cases h : p a
    · rw [List.filter_cons_of_neg (by simp [h]), List.filter_cons_of_pos (by simp [h])]
      simp only [List.length_cons]
      omega
    · rw [List.filter_cons_of_pos (by simp [h]), List.filter_cons_of_neg (by simp [h])]
      simp only [List.length_cons]
      omega

theorem sum_keyFilter_len :
    ∀ (ks : List String) (logs : List FailureLog), ks.Nodup →
      (∀ l ∈ logs, groupKey l ∈ ks) →
      (ks.map (fun k => (keyFilter logs k).length)).sum = logs.length
  | [], logs, _, hall => by
    cases logs with
    | nil => rfl
    | cons l ls => exact absurd (hall l (List.mem_cons_self _ _)) (List.not_mem_nil _)
  | k :: ks, logs, hnd, hall => by
    rw [List.map_cons, List.sum_cons]
    have hsplit := length_filter_split (fun l => decide (groupKey l = k)) logs
    have htailfix : ∀ k' ∈ ks,
        keyFilter (logs.filter (fun l => !(decide (groupKey l = k)))) k'
          = keyFilter logs k' := by
      intro k' hk'
      have hne : ¬(k = k') := fun e => (List.nodup_cons.mp hnd).1 (e ▸ hk')
      rw [keyFilter, keyFilter, List.filter_filter]
      refine List.filter_congr (fun l _ => ?_)
      by_cases hl : groupKey l = k'
      · have hlk : ¬(groupKey l = k) := fun e => hne (e.symm.trans hl)
        have hk'k : ¬(k' = k) := fun e => hne e.symm
        simp [hl, hlk, hk'k]
      · simp [hl]
    have ih := sum_keyFilter_len ks (logs.filter (fun l => !(decide (groupKey l = k))))
      (List.nodup_cons.mp hnd).2
      (fun l hl => by
        rcases List.mem_filter.mp hl with ⟨hmem, hpk⟩
        rcases List.mem_cons.mp (hall l hmem) with h | h
        · exact absurd (decide_eq_true_eq.mp (by simpa using hpk)) (by simp [h])
        · exact h)
    have hmapeq : ks.map (fun k' => (keyFilter logs k').length)
        = ks.map (fun k' =>
            (keyFilter (logs.filter (fun l => !(decide (groupKey l = k)))) k').length) :=
      List.map_congr_left (fun k' hk' => by rw [htailfix k' hk'])
    rw [hmapeq, ih]
    simpa [keyFilter] using hsplit

/-! ### The root-cause scan -/

/-- Some member's lowercased exception contains the needle. -/
def scanHit (logs : List FailureLog) (nd : String) : Prop :=
  ∃ l ∈ logs, strIncludes (strToLower l.exception) nd = true

theorem any_pair_iff (logs : List FailureLog) (n1 n2 : String) :
    ((logs.map (fun l => strToLower l.exception)).any
        (fun e => strIncludes e n1 || strIncludes e n2) = true)
      ↔ (scanHit logs n1 ∨ scanHit logs n2) := by
  simp only [scanHit, List.any_eq_true, List.mem_map, Bool.or_eq_true]
  constructor
  · rintro ⟨e, ⟨l, hl, rfl⟩, h | h⟩
    · exact Or.inl ⟨l, hl, h⟩
    · exact Or.inr ⟨l, hl, h⟩
  · rintro (⟨l, hl, h⟩ | ⟨l, hl, h⟩)
    · exact ⟨strToLower l.exception, ⟨l, hl, rfl⟩, Or.inl h⟩
    · exact ⟨strToLower l.exception, ⟨l, hl, rfl⟩, Or.inr h⟩

theorem scanHit_of_perm {l1 l2 : List FailureLog} (h : l1.Perm l2) (nd : String) :
    scanHit l1 nd ↔ scanHit l2 nd := by
  simp only [scanHit]
  constructor
  · rintro ⟨l, hl, hh⟩
    exact ⟨l, h.mem_iff.mp hl, hh⟩
  · rintro ⟨l, hl, hh⟩
    exact ⟨l, h.mem_iff.mpr hl, hh⟩

/-- Case analysis of `determineRootCause`: first match wins in the fixed
priority order, with the exact trigger lists of the source. -/
theorem determineRootCause_cases (logs : List FailureLog) :
    ((scanHit logs "context" ∨ scanHit logs "tenant") →
      determineRootCause logs
        = ⟨RootCategory.grounding, "Missing or invalid user/tenant context", 0.85⟩)
  ∧ (¬(scanHit logs "context" ∨ scanHit logs "tenant") →
     (scanHit logs "timeout" ∨ scanHit logs "network") →
      determineRootCause logs
        = ⟨RootCategory.timeout, "API timeouts or network connectivity issues", 0.90⟩)
  ∧ (¬(scanHit logs "context" ∨ scanHit logs "tenant") →
     ¬(scanHit logs "timeout" ∨ scanHit logs "network") →
     (scanHit logs "permission" ∨ scanHit logs "unauthorized") →
      determineRootCause logs
        = ⟨RootCategory.auth, "Authorization or permission issues", 0.88⟩)
  ∧ (¬(scanHit logs "context" ∨ scanHit logs "tenant") →
     ¬(scanHit logs "timeout" ∨ scanHit logs "network") →
     ¬(scanHit logs "permission" ∨ scanHit logs "unauthorized") →
     (scanHit logs "parameter" ∨ scanHit logs "input") →
      determineRootCause logs
        = ⟨RootCategory.input, "Invalid or missing skill input parameters", 0.82⟩)
  ∧ (¬(scanHit logs "context" ∨ scanHit logs "tenant") →
     ¬(scanHit logs "timeout" ∨ scanHit logs "network") →
     ¬(scanHit logs "permission" ∨ scanHit logs "unauthorized") →
     ¬(scanHit logs "parameter" ∨ scanHit logs "input") →
      determineRootCause logs
        = ⟨RootCategory.api, "General API or service issues", 0.70⟩) := by
  simp only [determineRootCause]
  refine ⟨fun h1 => ?_, fun h1 h2 => ?_, fun h1 h2 h3 => ?_,
    fun h1 h2 h3 h4 => ?_, fun h1 h2 h3 h4 => ?_⟩
  · rw [if_pos ((any_pair_iff logs "context" "tenant").mpr h1)]
  · rw [if_neg (fun hc => h1 ((any_pair_iff logs "context" "tenant").mp hc)),
      if_pos ((any_pair_iff logs "timeout" "network").mpr h2)]
  · rw [if_neg (fun hc => h1 ((any_pair_iff logs "context" "tenant").mp hc)),
      if_neg (fun hc => h2 ((any_pair_iff logs "timeout" "network").mp hc)),
      if_pos ((any_pair_iff logs "permission" "unauthorized").mpr h3)]
  · rw [if_neg (fun hc => h1 ((any_pair_iff logs "context" "tenant").mp hc)),
      if_neg (fun hc => h2 ((any_pair_iff logs "timeout" "network").mp hc)),
      if_neg (fun hc => h3 ((any_pair_iff logs "permission" "unauthorized").mp hc)),
      if_pos ((any_pair_iff logs "parameter" "input").mpr h4)]
  · rw [if_neg (fun hc => h1 ((any_pair_iff logs "context" "tenant").mp hc)),
      if_neg (fun hc => h2 ((any_pair_iff logs "timeout" "network").mp hc)),
      if_neg (fun hc => h3 ((any_pair_iff logs "permission" "unauthorized").mp hc)),
      if_neg (fun hc => h4 ((any_pair_iff logs "parameter" "input").mp hc))]

/-! ### Disjointness of the clusters -/

theorem groupKey_of_mem_cluster {logs : List FailureLog} {k : String}
    {c : ProcessedCluster} (hf : createClusterFromLogs (keyFilter logs k) k = some c) :
    c.failureLogs.Perm (keyFilter logs k) ∧ ∀ l ∈ c.failureLogs, groupKey l = k := by
  rcases createClusterFromLogs_eq_some hf with ⟨l0, rest, _, rfl⟩
  rw [buildCluster_failureLogs]
  refine ⟨List.perm_insertionSort logTimeLE _, fun l hl => ?_⟩
  exact (mem_keyFilter.mp ((List.mem_insertionSort logTimeLE).mp hl)).2

theorem pairwise_disjoint_presort (logs : List FailureLog) (m : Nat) :
    List.Pairwise (fun a b => ∀ l ∈ a.failureLogs, l ∉ b.failureLogs)
      (presortClusters logs m) := by
  rw [presortClusters, errorGroups_eq, List.filterMap_map, List.pairwise_filterMap]
  refine (nodup_jsSetDedup (logs.map groupKey)).imp ?_
  intro k k' hne c hc c' hc' l hl hl'
  simp only [Function.comp_apply, Option.mem_def] at hc hc'
  by_cases hm : m ≤ (keyFilter logs k).length
  · rw [if_pos hm] at hc
    by_cases hm' : m ≤ (keyFilter logs k').length
    · rw [if_pos hm'] at hc'
      have h1 := (groupKey_of_mem_cluster hc).2 l hl
      have h2 := (groupKey_of_mem_cluster hc').2 l hl'
      exact hne (h1 ▸ h2)
    · rw [if_neg hm'] at hc'
      cases hc'
  · rw [if_neg hm] at hc
    cases hc

theorem pairwise_disjoint_output (logs : List FailureLog) (m : Nat) :
    List.Pairwise (fun a b => ∀ l ∈ a.failureLogs, l ∉ b.failureLogs)
      (processFailureClusters logs m) := by
  have hperm : (processFailureClusters logs m).Perm (presortClusters logs m) :=
    List.perm_insertionSort clusterGE _
  refine (List.Perm.pairwise_iff ?_ hperm).mpr (pairwise_disjoint_presort logs m)
  intro a b hab l hl hla
  exact hab l hla hl

/-! ### Summing the failure counts -/

theorem presort_failureCounts (logs : List FailureLog) (m : Nat) :
    (presortClusters logs m).map (fun c => c.failureCount)
      = (errorGroups logs).filterMap
          (fun p => if m ≤ p.2.length then some p.2.length else none) := by
  rw [presortClusters]
  have h : ∀ gs : List (String × List FailureLog), (∀ p ∈ gs, p.2 ≠ []) →
      ((gs.filterMap
          (fun g => if m ≤ g.2.length then createClusterFromLogs g.2 g.1 else none)).map
        (fun c => c.failureCount))
        = gs.filterMap (fun p => if m ≤ p.2.length then some p.2.length else none) := by
    intro gs
    induction gs with
    | nil => intro _; rfl
    | cons p gs ih =>
      intro hne
      have hne0 : p.2 ≠ [] := hne p (List.mem_cons_self _ _)
      have ihg := ih (fun q hq => hne q (List.mem_cons_of_mem _ hq))
      obtain ⟨k, g⟩ := p
      cases g with
      | nil => exact absurd rfl hne0
      | cons l0 rest =>
        by_cases hm : m ≤ (l0 :: rest).length
        · rw [List.filterMap_cons_some
              (show _ = some (buildCluster l0 (l0 :: rest) k) by
                rw [if_pos hm, createClusterFromLogs_cons]),
            List.filterMap_cons_some
              (show _ = some (l0 :: rest).length by rw [if_pos hm]),
            List.map_cons, buildCluster_failureCount, ihg]
        · rw [List.filterMap_cons_none (by rw [if_neg hm]),
            List.filterMap_cons_none (by rw [if_neg hm]), ihg]
  exact h _ (fun p hp => errorGroups_snd_ne_nil hp)

theorem filterMap_if_sum (m : Nat) :
    ∀ gs : List (String × List FailureLog), (∀ p ∈ gs, p.2 ≠ []) →
      ((gs.filterMap (fun p => if m ≤ p.2.length then some p.2.length else none)).sum
          ≤ (gs.map (fun p => p.2.length)).sum
        ∧ (((gs.filterMap (fun p => if m ≤ p.2.length then some p.2.length else none)).sum
            = (gs.map (fun p => p.2.length)).sum) ↔ ∀ p ∈ gs, m ≤ p.2.length))
  | [], _ => ⟨le_refl 0, by simp⟩
  | p :: gs, hne => by
    obtain ⟨ihle, ihiff⟩ :=
      filterMap_if_sum m gs (fun q hq => hne q (List.mem_cons_of_mem _ hq))
    have hpos : 0 < p.2.length := List.length_pos.mpr (hne p (List.mem_cons_self _ _))
    by_cases hm : m ≤ p.2.length
    · rw [List.filterMap_cons_some (show _ = some p.2.length by rw [if_pos hm]),
        List.map_cons, List.sum_cons, List.sum_cons]
      refine ⟨by omega, ?_, ?_⟩
      · intro h q hq
        rcases List.mem_cons.mp hq with rfl | hq
        · exact hm
        · exact (ihiff.mp (by omega)) q hq
      · intro h
        have := ihiff.mpr (fun q hq => h q (List.mem_cons_of_mem _ hq))
        omega
    · rw [List.filterMap_cons_none (show _ = none by rw [if_neg hm]), List.map_cons,
        List.sum_cons]
      refine ⟨by omega, ?_, ?_⟩
      · intro h
        exact absurd h (by omega)
      · intro h
        exact absurd (h p (List.mem_cons_self _ _)) hm

theorem sum_group_lengths (logs : List FailureLog) :
    ((errorGroups logs).map (fun p => p.2.length)).sum = logs.length := by
  rw [errorGroups_eq, List.map_map]
  have h := sum_keyFilter_len (jsSetDedup (logs.map groupKey)) logs
    (nodup_jsSetDedup _)
    (fun l hl => (mem_jsSetDedup _ _).mpr (List.mem_map_of_mem groupKey hl))
  simpa using h

theorem all_groups_iff (logs : List FailureLog) (m : Nat) :
    (∀ p ∈ errorGroups logs, m ≤ p.2.length) ↔
      ∀ k ∈ logs.map groupKey, m ≤ (keyFilter logs k).length := by
  constructor
  · intro h k hk
    exact h (k, keyFilter logs k) (mem_errorGroups.mpr ⟨hk, rfl⟩)
  · rintro h ⟨k, g⟩ hp
    rcases mem_errorGroups.mp hp with ⟨hk, rfl⟩
    exact h k hk

/-! ### Claim theorems -/

/-- C7: a group of one "context missing" event and nine "API timeout
occurred" events classifies as `grounding`, not `timeout`: the "context"
check has higher priority and scans all member exceptions; without the
context event the same group would classify as `timeout`. -/
theorem C7_priority_union_scan :
    (determineRootCause mixedLogs).category = RootCategory.grounding
  ∧ (determineRootCause (List.replicate 9 timeoutLog)).category = RootCategory.timeout
  ∧ ((createClusterFromLogs mixedLogs "k").map (fun c => c.rootCause.category))
      = some RootCategory.grounding
  ∧ strIncludes (strToLower timeoutLog.exception) "timeout" = true :=
  ⟨by decide, by decide, by decide, by decide⟩

/-- C2 counterexample: the claim also lists "authentication" (auth tier) and
"invalid" (input tier) as triggers, but the source scans only for
"permission"/"unauthorized" and "parameter"/"input".  A cluster whose
exceptions contain "invalid" (resp. "authentication") and no scanned needle
falls through to the `api` fallback with confidence 0.70, not to the tier the
claim assigns. -/
theorem C2_counterexample_invalid_authentication :
    (rootCauseSpecClaim (List.replicate 3 invalidLog)).category = RootCategory.input
  ∧ (determineRootCause (List.replicate 3 invalidLog)).category = RootCategory.api
  ∧ (processFailureClusters (List.replicate 3 invalidLog) 3).map
      (fun c => c.rootCause.category) = [RootCategory.api]
  ∧ (rootCauseSpecClaim [authWordLog]).category = RootCategory.auth
  ∧ (determineRootCause [authWordLog]).category = RootCategory.api :=
  ⟨by decide, by decide, by decide, by decide, by decide⟩

/-- C1 counterexample: the claim describes the key as joining the first three
whitespace-separated tokens, but the source splits on single space characters
only.  With a tab inside the exception the two keys differ: the two events
below share the claim's key `S_a_b_c`, so under the claim (minClusterSize 2)
they would form one emitted cluster of 2 and the failure counts would sum to
the input length; the code computes different keys, two singleton groups, and
emits nothing. -/
theorem C1_counterexample_tab_token :
    groupKeySpec cxTabLog = "S_a_b_c"
  ∧ groupKeySpec cxSpaceLog = "S_a_b_c"
  ∧ groupKey cxTabLog = "S_a\tb_c_d"
  ∧ groupKey cxSpaceLog = "S_a_b_c"
  ∧ processFailureClusters [cxTabLog, cxSpaceLog] 2 = [] :=
  ⟨by decide, by decide, by decide, by decide, by decide⟩

theorem filterMap_if_length (m : Nat) :
    ∀ gs : List (String × List FailureLog),
      (gs.filterMap (fun p => if m ≤ p.2.length then some p.2.length else none)).length
        = (gs.filter (fun p => decide (m ≤ p.2.length))).length
  | [] => rfl
  | p :: gs => by
    by_cases hm : m ≤ p.2.length
    · rw [List.filterMap_cons_some (show _ = some p.2.length by rw [if_pos hm]),
        List.filter_cons_of_pos (by simpa using hm), List.length_cons, List.length_cons,
        filterMap_if_length m gs]
    · rw [List.filterMap_cons_none (show _ = none by rw [if_neg hm]),
        List.filter_cons_of_neg (by simpa using hm), filterMap_if_length m gs]

/-- C8: `processFailureClusters` is total.  Every group the scan builds is
nonempty, so the `logs[0]` access of `createClusterFromLogs` always succeeds
(the embedding's `Option` is always `some`); the empty input yields the empty
output; and no cluster is lost: the output has exactly one cluster per group
meeting the threshold. -/
theorem C8_total_over_any_input (logs : List FailureLog) (m : Nat) :
    (∀ p ∈ errorGroups logs, p.2 ≠ [])
  ∧ (∀ p ∈ errorGroups logs, ∃ c, createClusterFromLogs p.2 p.1 = some c)
  ∧ processFailureClusters [] m = []
  ∧ (processFailureClusters logs m).length
      = ((errorGroups logs).filter (fun p => decide (m ≤ p.2.length))).length := by
  refine ⟨fun p hp => errorGroups_snd_ne_nil hp, fun p hp => ?_, rfl, ?_⟩
  · rcases List.exists_cons_of_ne_nil (errorGroups_snd_ne_nil hp) with ⟨l0, rest, heq⟩
    exact ⟨buildCluster l0 p.2 p.1, by rw [heq]; rfl⟩
  · have h1 : (processFailureClusters logs m).length = (presortClusters logs m).length := by
      rw [processFailureClusters]
      exact List.length_insertionSort clusterGE _
    have h2 : (presortClusters logs m).length
        = ((presortClusters logs m).map (fun c => c.failureCount)).length :=
      (List.length_map _ _).symm
    rw [h1, h2, presort_failureCounts, filterMap_if_length]

/-- C3: the severity of every emitted cluster is the pure step function of its
`failureCount` with exclusive lower bounds, and the boundary groups of
exactly 51, 50, 21, 20, 11 and 10 events get `critical`, `high`, `high`,
`medium`, `medium` and `low` respectively. -/
theorem C3_severity_step_function (logs : List FailureLog) (m : Nat) :
    ((processFailureClusters logs m).Forall (fun c =>
      c.severity = (if 50 < c.failureCount then Severity.critical
        else if 20 < c.failureCount then Severity.high
        else if 10 < c.failureCount then Severity.medium
        else Severity.low)))
  ∧ (processFailureClusters (List.replicate 51 sevLog) 1).map (fun c => c.severity)
      = [Severity.critical]
  ∧ (processFailureClusters (List.replicate 50 sevLog) 1).map (fun c => c.severity)
      = [Severity.high]
  ∧ (processFailureClusters (List.replicate 21 sevLog) 1).map (fun c => c.severity)
      = [Severity.high]
  ∧ (processFailureClusters (List.replicate 20 sevLog) 1).map (fun c => c.severity)
      = [Severity.medium]
  ∧ (processFailureClusters (List.replicate 11 sevLog) 1).map (fun c => c.severity)
      = [Severity.medium]
  ∧ (processFailureClusters (List.replicate 10 sevLog) 1).map (fun c => c.severity)
      = [Severity.low] := by
  refine ⟨List.forall_iff_forall_mem.mpr (fun c hc => ?_),
    by decide, by decide, by decide, by decide, by decide, by decide⟩
  rcases shape_of_mem_output hc with ⟨k, l0, rest, hk, heq, hle, rfl⟩
  rw [buildCluster_severity, buildCluster_failureCount]

/-- C9 (implicit): the trend of an emitted cluster never is `decreasing`, and
is a function of the member count alone: `increasing` for odd counts up to 9,
`stable` otherwise. -/
theorem C9_trend_determined_by_parity (logs : List FailureLog) (m : Nat) :
    (processFailureClusters logs m).Forall (fun c =>
      c.trend ≠ Trend.decreasing
      ∧ c.trend = (if c.failureCount % 2 = 1 ∧ c.failureCount ≤ 9
          then Trend.increasing else Trend.stable)) := by
  refine List.forall_iff_forall_mem.mpr (fun c hc => ?_)
  rcases shape_of_mem_output hc with ⟨k, l0, rest, hk, heq, hle, rfl⟩
  rw [buildCluster_trend, buildCluster_failureCount, determineTrend_eq]
  refine ⟨?_, rfl⟩
  by_cases h : (keyFilter logs k).length % 2 = 1 ∧ (keyFilter logs k).length ≤ 9
  · rw [if_pos h]
    exact fun hc => Trend.noConfusion hc
  · rw [if_neg h]
    exact fun hc => Trend.noConfusion hc

/-- C4: every emitted cluster's trend comes from sorting its group ascending
by timestamp, splitting at `floor(n / 2)` (the first half gets the smaller
share), and comparing the half lengths against factors `1.2` and `0.8`; ten
events sharing one timestamp split `5 / 5` and yield `stable`. -/
theorem C4_trend_midpoint_split (logs : List FailureLog) (m : Nat) :
    ((processFailureClusters logs m).Forall (fun c =>
      List.Pairwise logTimeLE c.failureLogs
      ∧ c.trend
        = (if ((c.failureLogs.drop (c.failureLogs.length / 2)).length : ℚ)
              > ((c.failureLogs.take (c.failureLogs.length / 2)).length : ℚ) * 1.2
           then Trend.increasing
           else if ((c.failureLogs.drop (c.failureLogs.length / 2)).length : ℚ)
              < ((c.failureLogs.take (c.failureLogs.length / 2)).length : ℚ) * 0.8
           then Trend.decreasing
           else Trend.stable)))
  ∧ determineTrend (List.replicate 10 (mkLog "S" "x" 5)) = Trend.stable
  ∧ ((List.insertionSort logTimeLE (List.replicate 10 (mkLog "S" "x" 5))).take
        ((List.replicate 10 (mkLog "S" "x" 5)).length / 2)).length = 5
  ∧ ((List.insertionSort logTimeLE (List.replicate 10 (mkLog "S" "x" 5))).drop
        ((List.replicate 10 (mkLog "S" "x" 5)).length / 2)).length = 5 := by
  refine ⟨List.forall_iff_forall_mem.mpr (fun c hc => ?_), ?_, by decide, by decide⟩
  · rcases shape_of_mem_output hc with ⟨k, l0, rest, hk, heq, hle, rfl⟩
    rw [buildCluster_trend, buildCluster_failureLogs]
    exact ⟨List.sorted_insertionSort logTimeLE _, rfl⟩
  · rw [determineTrend_eq]
    simp

/-- C5: the returned cluster list is sorted descending by `failureCount`, and
clusters with equal `failureCount` keep their order from the pre-sort list
`presortClusters`, which lists the groups in first-insertion order of their
keys (the JS `Map` iteration order): the final sort is stable. -/
theorem C5_sorted_descending_stable_ties (logs : List FailureLog) (m : Nat) :
    List.Pairwise (fun a b => b.failureCount ≤ a.failureCount)
      (processFailureClusters logs m)
  ∧ ∀ v : Nat,
      (processFailureClusters logs m).filter (fun c => decide (c.failureCount = v))
        = (presortClusters logs m).filter (fun c => decide (c.failureCount = v)) := by
  constructor
  · exact (List.sorted_insertionSort clusterGE (presortClusters logs m)).imp (fun h => h)
  · intro v
    rw [processFailureClusters]
    refine filter_insertionSort clusterGE _ (fun a b ha hb => ?_) _
    have ha' : a.failureCount = v := of_decide_eq_true ha
    have hb' : b.failureCount = v := of_decide_eq_true hb
    show b.failureCount ≤ a.failureCount
    rw [ha', hb']

/-- C6: for every emitted cluster, `failureCount` is the length of
`failureLogs`, every member's `skillName` appears in `affectedSkills`,
`firstSeen ≤ lastSeen`, and `firstSeen` / `lastSeen` are the minimum /
maximum member timestamps, both attained by members of `failureLogs`. -/
theorem C6_cluster_field_invariants (logs : List FailureLog) (m : Nat) :
    (processFailureClusters logs m).Forall (fun c =>
      c.failureCount = c.failureLogs.length
      ∧ (∀ l ∈ c.failureLogs, l.skillName ∈ c.affectedSkills)
      ∧ c.firstSeen ≤ c.lastSeen
      ∧ (∃ l ∈ c.failureLogs, l.timestamp = c.firstSeen)
      ∧ (∃ l ∈ c.failureLogs, l.timestamp = c.lastSeen)
      ∧ (∀ l ∈ c.failureLogs, c.firstSeen ≤ l.timestamp ∧ l.timestamp ≤ c.lastSeen)) := by
  refine List.forall_iff_forall_mem.mpr (fun c hc => ?_)
  rcases shape_of_mem_output hc with ⟨k, l0, rest, hk, heq, hle, rfl⟩
  have hl0 : l0 ∈ keyFilter logs k := by
    rw [heq]
    exact List.mem_cons_self _ _
  have hts : l0.timestamp ∈ (keyFilter logs k).map (fun l => l.timestamp) :=
    List.mem_map_of_mem _ hl0
  refine ⟨?_, ?_, ?_, ?_, ?_, ?_⟩
  · rw [buildCluster_failureCount, buildCluster_failureLogs, List.length_insertionSort]
  · intro l hl
    rw [buildCluster_affectedSkills]
    rw [buildCluster_failureLogs] at hl
    exact (mem_jsSetDedup _ _).mpr
      (List.mem_map_of_mem _ ((List.mem_insertionSort logTimeLE).mp hl))
  · rw [buildCluster_firstSeen, buildCluster_lastSeen]
    exact le_trans (foldl_min_le_init _ _) (init_le_foldl_max _ _)
  · rw [buildCluster_firstSeen, buildCluster_failureLogs]
    have hmem : ((keyFilter logs k).map (fun l => l.timestamp)).foldl min l0.timestamp
        ∈ (keyFilter logs k).map (fun l => l.timestamp) := by
      rcases foldl_min_mem ((keyFilter logs k).map (fun l => l.timestamp)) l0.timestamp
        with h | h
      · rw [h]
        exact hts
      · exact h
    rcases List.mem_map.mp hmem with ⟨l, hlg, hts'⟩
    exact ⟨l, (List.mem_insertionSort logTimeLE).mpr hlg, hts'⟩
  · rw [buildCluster_lastSeen, buildCluster_failureLogs]
    have hmem : ((keyFilter logs k).map (fun l => l.timestamp)).foldl max l0.timestamp
        ∈ (keyFilter logs k).map (fun l => l.timestamp) := by
      rcases foldl_max_mem ((keyFilter logs k).map (fun l => l.timestamp)) l0.timestamp
        with h | h
      · rw [h]
        exact hts
      · exact h
    rcases List.mem_map.mp hmem with ⟨l, hlg, hts'⟩
    exact ⟨l, (List.mem_insertionSort logTimeLE).mpr hlg, hts'⟩
  · intro l hl
    rw [buildCluster_firstSeen, buildCluster_lastSeen]
    rw [buildCluster_failureLogs] at hl
    have hlg : l ∈ keyFilter logs k := (List.mem_insertionSort logTimeLE).mp hl
    have hlt : l.timestamp ∈ (keyFilter logs k).map (fun l => l.timestamp) :=
      List.mem_map_of_mem _ hlg
    exact ⟨foldl_min_le_mem _ _ _ hlt, mem_le_foldl_max _ _ _ hlt⟩

/-- C2 (amended): every emitted cluster's root cause comes from the
case-insensitive substring scan of all member exceptions, first match wins in
the fixed priority order; the auth tier is triggered by "permission" or
"unauthorized" (not "authentication") and the input tier by "parameter" or
"input" (not "invalid"); the fallback is `api` with confidence 0.70. -/
theorem C2_rootCause_priority_scan (logs : List FailureLog) (m : Nat) :
    (processFailureClusters logs m).Forall (fun c =>
      ((scanHit c.failureLogs "context" ∨ scanHit c.failureLogs "tenant") →
        c.rootCause
          = ⟨RootCategory.grounding, "Missing or invalid user/tenant context", 0.85⟩)
      ∧ (¬(scanHit c.failureLogs "context" ∨ scanHit c.failureLogs "tenant") →
         (scanHit c.failureLogs "timeout" ∨ scanHit c.failureLogs "network") →
          c.rootCause
            = ⟨RootCategory.timeout, "API timeouts or network connectivity issues", 0.90⟩)
      ∧ (¬(scanHit c.failureLogs "context" ∨ scanHit c.failureLogs "tenant") →
         ¬(scanHit c.failureLogs "timeout" ∨ scanHit c.failureLogs "network") →
         (scanHit c.failureLogs "permission" ∨ scanHit c.failureLogs "unauthorized") →
          c.rootCause
            = ⟨RootCategory.auth, "Authorization or permission issues", 0.88⟩)
      ∧ (¬(scanHit c.failureLogs "context" ∨ scanHit c.failureLogs "tenant") →
         ¬(scanHit c.failureLogs "timeout" ∨ scanHit c.failureLogs "network") →
         ¬(scanHit c.failureLogs "permission" ∨ scanHit c.failureLogs "unauthorized") →
         (scanHit c.failureLogs "parameter" ∨ scanHit c.failureLogs "input") →
          c.rootCause
            = ⟨RootCategory.input, "Invalid or missing skill input parameters", 0.82⟩)
      ∧ (¬(scanHit c.failureLogs "context" ∨ scanHit c.failureLogs "tenant") →
         ¬(scanHit c.failureLogs "timeout" ∨ scanHit c.failureLogs "network") →
         ¬(scanHit c.failureLogs "permission" ∨ scanHit c.failureLogs "unauthorized") →
         ¬(scanHit c.failureLogs "parameter" ∨ scanHit c.failureLogs "input") →
          c.rootCause
            = ⟨RootCategory.api, "General API or service issues", 0.70⟩)) := by
  refine List.forall_iff_forall_mem.mpr (fun c hc => ?_)
  rcases shape_of_mem_output hc with ⟨k, l0, rest, hk, heq, hle, rfl⟩
  rw [buildCluster_rootCause, buildCluster_failureLogs]
  have hiff : ∀ nd, scanHit (List.insertionSort logTimeLE (keyFilter logs k)) nd
      ↔ scanHit (keyFilter logs k) nd :=
    fun nd => scanHit_of_perm (List.perm_insertionSort logTimeLE _) nd
  simp only [hiff]
  exact determineRootCause_cases (keyFilter logs k)

/-- C1 (amended): `processFailureClusters` groups events by the key formed
from the event's `skillName`, an underscore, and the first three tokens of
the exception split on single space characters `U+0020` (consecutive spaces
yield empty tokens, and other whitespace such as tabs does not separate
tokens; all tokens if fewer than three), joined with underscores.  A group is
emitted iff its member count reaches `minClusterSize`; every event lies in at
most one cluster; and the failure counts sum to at most the number of input
events, with equality exactly when every group meets the threshold. -/
theorem C1_grouping_threshold_sum (logs : List FailureLog) (m : Nat)
    (_hm : 0 < m) :
    ((processFailureClusters logs m).Forall (fun c =>
      ∃ k, k ∈ logs.map groupKey ∧ m ≤ (keyFilter logs k).length ∧
        createClusterFromLogs (keyFilter logs k) k = some c))
  ∧ (∀ k ∈ logs.map groupKey, m ≤ (keyFilter logs k).length →
      ∃ c ∈ processFailureClusters logs m,
        createClusterFromLogs (keyFilter logs k) k = some c)
  ∧ List.Pairwise (fun a b => ∀ l ∈ a.failureLogs, l ∉ b.failureLogs)
      (processFailureClusters logs m)
  ∧ ((processFailureClusters logs m).map (fun c => c.failureCount)).sum ≤ logs.length
  ∧ (((processFailureClusters logs m).map (fun c => c.failureCount)).sum = logs.length
      ↔ ∀ k ∈ logs.map groupKey, m ≤ (keyFilter logs k).length) := by
  have hsum : ((processFailureClusters logs m).map (fun c => c.failureCount)).sum
      = ((errorGroups logs).filterMap
          (fun p => if m ≤ p.2.length then some p.2.length else none)).sum := by
    rw [processFailureClusters,
      ((List.perm_insertionSort clusterGE (presortClusters logs m)).map
        (fun c => c.failureCount)).sum_eq,
      presort_failureCounts]
  obtain ⟨hle', hiff'⟩ :=
    filterMap_if_sum m (errorGroups logs) (fun p hp => errorGroups_snd_ne_nil hp)
  refine ⟨?_, ?_, pairwise_disjoint_output logs m, ?_, ?_⟩
  · exact List.forall_iff_forall_mem.mpr
      (fun c hc => mem_presortClusters.mp (mem_processFailureClusters.mp hc))
  · intro k hk hlen
    rcases List.exists_cons_of_ne_nil (keyFilter_ne_nil hk) with ⟨l0, rest, heq⟩
    refine ⟨buildCluster l0 (keyFilter logs k) k, ?_, by rw [heq]; rfl⟩
    exact mem_processFailureClusters.mpr
      (mem_presortClusters.mpr ⟨k, hk, hlen, by rw [heq]; rfl⟩)
  · rw [hsum]
    exact le_trans hle' (le_of_eq (sum_group_lengths logs))
  · rw [hsum, ← sum_group_lengths logs]
    exact hiff'.trans (all_groups_iff logs m)

/-- C1 witness: at the concrete input `demoLogs` with threshold 2 the summed
failure counts stay at or below the input length. -/
theorem C1_grouping_threshold_sum_witness :
    ((processFailureClusters demoLogs 2).map (fun c => c.failureCount)).sum
      ≤ demoLogs.length :=
  (C1_grouping_threshold_sum demoLogs 2 (by decide)).2.2.2.1

/-- C10 (implicit): the stored `failureLogs` of every emitted cluster is the
time-sorted permutation of its group (the in-place sort of `determineTrend`
runs before the field is stored), while `representativePrompts` is computed
earlier, from the first five events of the group in original scan order. -/
theorem C10_failureLogs_sorted_prompts_unsorted (logs : List FailureLog) (m : Nat) :
    ((processFailureClusters logs m).Forall (fun c =>
      List.Pairwise logTimeLE c.failureLogs))
  ∧ (∀ k ∈ logs.map groupKey, m ≤ (keyFilter logs k).length →
      ∃ c ∈ processFailureClusters logs m,
        c.failureLogs = List.insertionSort logTimeLE (keyFilter logs k)
        ∧ c.failureLogs.Perm (keyFilter logs k)
        ∧ c.representativePrompts
            = jsSetDedup (((keyFilter logs k).take 5).map (fun l => l.prompt))) := by
  constructor
  · refine List.forall_iff_forall_mem.mpr (fun c hc => ?_)
    rcases shape_of_mem_output hc with ⟨k, l0, rest, hk, heq, hle, rfl⟩
    rw [buildCluster_failureLogs]
    exact List.sorted_insertionSort logTimeLE _
  · intro k hk hlen
    rcases List.exists_cons_of_ne_nil (keyFilter_ne_nil hk) with ⟨l0, rest, heq⟩
    refine ⟨buildCluster l0 (keyFilter logs k) k, ?_, ?_, ?_, ?_⟩
    · exact mem_processFailureClusters.mpr
        (mem_presortClusters.mpr ⟨k, hk, hlen, by rw [heq]; rfl⟩)
    · exact buildCluster_failureLogs _ _ _
    · rw [buildCluster_failureLogs]
      exact List.perm_insertionSort logTimeLE _
    · exact buildCluster_representativePrompts _ _ _
